import Mathlib

/-!
# Verification of the Chat-App-Backend messaging core

Shallow embedding of the server's real-time messaging layer
(`server/sockets/socketHandler.js`, `server/utils/crypto.js`, and the
mongoose models `Message`, `Conversation`, `User`) together with proofs
about the embedded operations.

JavaScript strings are modelled as `List Char`.  MongoDB collections are
modelled as Lean lists of records; each socket handler becomes a pure
function from a database state (plus the event payload) to a new database
state together with the list of emitted socket events and attempted push
notifications.  The AES-256-CBC primitive of Node's `crypto` module and
Node's UTF-8 `Buffer` codec are external collaborators: they enter as
function parameters, constrained only by the hypotheses the Node library
documents (the decipher inverts the cipher; byte decoding inverts byte
encoding).  Everything written in the repository itself — hex encoding,
the `iv:ciphertext` framing, the `split(':')` parsing, the try/catch
fallbacks, the mongoose validation behaviour, and all handler logic — is
embedded concretely.
-/

/-- JavaScript strings, modelled as lists of characters. -/
abbrev JSString := List Char

/-- `String.prototype.split` with a single-character separator:
`"a:b".split(':') = ["a","b"]`, `"".split(':') = [""]`. -/
def splitOnChar (sep : Char) : JSString → List JSString
  | [] => [[]]
  | c :: rest =>
    if c = sep then [] :: splitOnChar sep rest
    else
      match splitOnChar sep rest with
      | [] => [[c]]
      | p :: ps => (c :: p) :: ps

/-- The sixteen lowercase hex digits, as produced by
`Buffer.prototype.toString('hex')`. -/
def hexDigits : JSString := "0123456789abcdef".toList

/-- The hex digit for a nibble value. -/
def hexDigitChar (n : Nat) : Char :=
  hexDigits.getD n '0'

/-- `Buffer.prototype.toString('hex')`: the bytes of the buffer, each as
two lowercase hex digits (high nibble first). -/
def bytesToHex : List Nat → JSString
  | [] => []
  | b :: bs => hexDigitChar (b / 16 % 16) :: hexDigitChar (b % 16) :: bytesToHex bs

/-- Numeric value of a hex digit (`Buffer.from(…, 'hex')` accepts both
cases), `none` on a non-hex character. -/
def hexVal (c : Char) : Option Nat :=
  if '0' ≤ c ∧ c ≤ '9' then some (c.toNat - '0'.toNat)
  else if 'a' ≤ c ∧ c ≤ 'f' then some (c.toNat - 'a'.toNat + 10)
  else if 'A' ≤ c ∧ c ≤ 'F' then some (c.toNat - 'A'.toNat + 10)
  else none

/-- `Buffer.from(s, 'hex')`: decodes pairs of hex digits; decoding stops
at the first invalid pair, and a trailing lone digit is dropped. -/
def hexToBytes : JSString → List Nat
  | c1 :: c2 :: rest =>
    match hexVal c1, hexVal c2 with
    | some h, some l => (16 * h + l) :: hexToBytes rest
    | _, _ => []
  | _ => []

/-- `encrypt` from `server/utils/crypto.js`.  `encC` is the external
AES-256-CBC cipher (iv and plaintext bytes to ciphertext bytes, as
performed by `crypto.createCipheriv` / `update` / `final`), `strBytes` is
Node's `Buffer.from(text)` UTF-8 encoder, `iv` the 16 random bytes from
`crypto.randomBytes(16)`.  An empty (falsy) input is returned as is. -/
def encrypt (encC : List Nat → List Nat → List Nat)
    (strBytes : JSString → List Nat) (iv : List Nat) (text : JSString) :
    JSString :=
  if text = [] then text
  else bytesToHex iv ++ ':' :: bytesToHex (encC iv (strBytes text))

/-- `decrypt` from `server/utils/crypto.js`.  `decC` is the external
AES-256-CBC decipher (`crypto.createDecipheriv` / `update` / `final`);
it returns `none` whenever the Node calls would throw (bad iv length,
undecipherable ciphertext, bad padding), which the source catches,
returning the input unchanged.  `bytesToStr` is Node's
`Buffer.prototype.toString()` UTF-8 decoder.  An empty (falsy) input and
an input without a `:`-separated iv part are returned as is. -/
def decrypt (decC : List Nat → List Nat → Option (List Nat))
    (bytesToStr : List Nat → JSString) (text : JSString) : JSString :=
  if text = [] then text
  else
    match splitOnChar ':' text with
    | p :: r :: rs =>
      match decC (hexToBytes p)
          (hexToBytes (List.intercalate [':'] (r :: rs))) with
      | some pt => bytesToStr pt
      | none => text
    | _ => text

/-! ## Basic facts about the string and hex utilities -/

theorem splitOnChar_ne_nil (sep : Char) (s : JSString) :
    splitOnChar sep s ≠ [] := by
  induction s with
  | nil => simp [splitOnChar]
  | cons c rest ih =>
    simp only [splitOnChar]
    by_cases h : c = sep
    · simp [h]
    · simp only [if_neg h]
      cases hr : splitOnChar sep rest with
      | nil => simp
      | cons p ps => simp

theorem splitOnChar_of_not_mem {sep : Char} {s : JSString}
    (h : sep ∉ s) : splitOnChar sep s = [s] := by
  induction s with
  | nil => rfl
  | cons c rest ih =>
    simp only [List.mem_cons, not_or] at h
    have hc : ¬ c = sep := fun e => h.1 e.symm
    simp only [splitOnChar, if_neg hc]
    rw [ih h.2]

theorem splitOnChar_append {sep : Char} {s1 : JSString} (s2 : JSString)
    (h : sep ∉ s1) :
    splitOnChar sep (s1 ++ sep :: s2) = s1 :: splitOnChar sep s2 := by
  induction s1 with
  | nil => simp [splitOnChar]
  | cons c rest ih =>
    simp only [List.mem_cons, not_or] at h
    have hc : ¬ c = sep := fun e => h.1 e.symm
    simp only [List.cons_append, splitOnChar, if_neg hc, List.append_eq]
    rw [ih h.2]

theorem hexDigitChar_ne_colon (n : Nat) : hexDigitChar n ≠ ':' := by
  have hall : ∀ c ∈ hexDigits, c ≠ ':' := by decide
  unfold hexDigitChar List.getD
  cases hg : hexDigits.get? n with
  | none => simp [hg]
  | some c =>
    have := List.get?_mem hg
    simp only [hg, Option.getD_some]
    exact hall c this

theorem colon_not_mem_bytesToHex (bs : List Nat) :
    ':' ∉ bytesToHex bs := by
  induction bs with
  | nil => simp [bytesToHex]
  | cons b bs ih =>
    simp only [bytesToHex, List.mem_cons, not_or]
    exact ⟨fun h => hexDigitChar_ne_colon _ h.symm,
           fun h => hexDigitChar_ne_colon _ h.symm, ih⟩

theorem hexVal_hexDigitChar : ∀ n, n < 16 → hexVal (hexDigitChar n) = some n := by
  decide

theorem hexToBytes_bytesToHex {bs : List Nat} (h : ∀ b ∈ bs, b < 256) :
    hexToBytes (bytesToHex bs) = bs := by
  induction bs with
  | nil => rfl
  | cons b bs ih =>
    have hb : b < 256 := h b (List.mem_cons_self _ _)
    have h1 : b / 16 % 16 < 16 := Nat.mod_lt _ (by norm_num)
    have h2 : b % 16 < 16 := Nat.mod_lt _ (by norm_num)
    simp only [bytesToHex, hexToBytes, hexVal_hexDigitChar _ h1,
      hexVal_hexDigitChar _ h2]
    have hval : 16 * (b / 16 % 16) + b % 16 = b := by omega
    rw [hval, ih (fun x hx => h x (List.mem_cons_of_mem _ hx))]

theorem length_bytesToHex (bs : List Nat) :
    (bytesToHex bs).length = 2 * bs.length := by
  induction bs with
  | nil => rfl
  | cons b bs ih =>
    simp only [bytesToHex, List.length_cons, ih]
    omega

theorem intercalate_singleton (sep : List Char) (l : JSString) :
    List.intercalate sep [l] = l := by
  simp [List.intercalate]

/-! ## Behaviour of the codec (`server/utils/crypto.js`) -/

/-- Core round-trip: decrypting an output of `encrypt` recovers the
plaintext, provided the external decipher inverts the external cipher
(Node's guarantee for AES-256-CBC with matching key and iv), the cipher
emits bytes, the iv is made of bytes, and the UTF-8 byte codec inverts
(Node's guarantee for `Buffer`). -/
theorem decrypt_encrypt (encC : List Nat → List Nat → List Nat)
    (decC : List Nat → List Nat → Option (List Nat))
    (sb : JSString → List Nat) (b2s : List Nat → JSString)
    (iv : List Nat) (x : JSString)
    (hinv : decC iv (encC iv (sb x)) = some (sb x))
    (hb : ∀ bb ∈ encC iv (sb x), bb < 256)
    (hivb : ∀ bb ∈ iv, bb < 256)
    (hback : b2s (sb x) = x)
    (hx : x ≠ []) :
    decrypt decC b2s (encrypt encC sb iv x) = x := by
  have henc : encrypt encC sb iv x =
      bytesToHex iv ++ ':' :: bytesToHex (encC iv (sb x)) := by
    simp [encrypt, hx]
  have hne : bytesToHex iv ++ ':' :: bytesToHex (encC iv (sb x)) ≠ [] := by
    intro hcontra
    have := congrArg List.length hcontra
    simp at this
  have hsplit : splitOnChar ':' (bytesToHex iv ++ ':' :: bytesToHex (encC iv (sb x))) =
      [bytesToHex iv, bytesToHex (encC iv (sb x))] := by
    rw [splitOnChar_append _ (colon_not_mem_bytesToHex iv),
        splitOnChar_of_not_mem (colon_not_mem_bytesToHex _)]
  rw [henc]
  unfold decrypt
  rw [if_neg hne]
  simp only [hsplit, intercalate_singleton, hexToBytes_bytesToHex hivb,
    hexToBytes_bytesToHex hb, hinv]
  exact hback

/-- `decrypt` returns its input unchanged when the input is empty or has
no `:`-separated iv part (fewer than two split segments). -/
theorem decrypt_of_short (decC : List Nat → List Nat → Option (List Nat))
    (b2s : List Nat → JSString) (t : JSString)
    (h : (splitOnChar ':' t).length < 2) :
    decrypt decC b2s t = t := by
  unfold decrypt
  by_cases ht : t = []
  · rw [if_pos ht]
  · rw [if_neg ht]
    cases hs : splitOnChar ':' t with
    | nil => rfl
    | cons p ps =>
      cases ps with
      | nil => rfl
      | cons r rs =>
        rw [hs] at h
        simp at h
        omega

/-- `decrypt` returns its input unchanged when the decipher step fails
(i.e. when the Node `createDecipheriv`/`update`/`final` calls would have
thrown and the `catch` branch runs). -/
theorem decrypt_of_fail (decC : List Nat → List Nat → Option (List Nat))
    (b2s : List Nat → JSString) (t p r : JSString) (rs : List JSString)
    (hs : splitOnChar ':' t = p :: r :: rs)
    (hd : decC (hexToBytes p)
        (hexToBytes (List.intercalate [':'] (r :: rs))) = none) :
    decrypt decC b2s t = t := by
  unfold decrypt
  by_cases ht : t = []
  · rw [if_pos ht]
  · rw [if_neg ht]
    simp only [hs, hd]

/-- `decrypt` is total: on every input it either returns the input
unchanged or returns the byte-decoded plaintext of a successful
decipher; no input makes it diverge or escape (models "never throws"). -/
theorem decrypt_cases (decC : List Nat → List Nat → Option (List Nat))
    (b2s : List Nat → JSString) (t : JSString) :
    decrypt decC b2s t = t ∨ ∃ pt, decC (hexToBytes ((splitOnChar ':' t).headI))
        (hexToBytes (List.intercalate [':'] ((splitOnChar ':' t).tail))) = some pt ∧
      decrypt decC b2s t = b2s pt := by
  unfold decrypt
  by_cases ht : t = []
  · left; rw [if_pos ht]
  · rw [if_neg ht]
    cases hs : splitOnChar ':' t with
    | nil => left; rfl
    | cons p ps =>
      cases ps with
      | nil => left; rfl
      | cons r rs =>
        cases hd : decC (hexToBytes p)
            (hexToBytes (List.intercalate [':'] (r :: rs))) with
        | none => left; simp only [hd]
        | some pt =>
          right
          refine ⟨pt, by simp [hs, hd], ?_⟩
          simp only [hd]

/-! ## Data model (mongoose schemas) -/

/-- Per-message delivery status (`MessageSchema.status`,
enum `['sent','delivered','read']`, default `'sent'`). -/
inductive Status where
  | sent
  | delivered
  | read
deriving DecidableEq, Repr

/-- Numeric rank of a status along the lifecycle sent → delivered → read,
used to state monotonicity. -/
def statusRank : Status → Nat
  | .sent => 0
  | .delivered => 1
  | .read => 2

/-- A stored `Message` document (`server/models/Message.js`).  `type` is
kept as the raw client-supplied string; the schema's enum validation is
modelled in the save step.  `duration` is irrelevant to every claim and
omitted from the record (it never flows into any handler logic). -/
structure Message where
  id : JSString
  conversation_id : JSString
  sender_id : JSString
  content : JSString
  type : JSString
  status : Status
  isDeleted : Bool
deriving DecidableEq, Repr

/-- A stored `Conversation` document (`server/models/Conversation.js`). -/
structure Conversation where
  id : JSString
  participants : List JSString
  last_message : JSString
deriving DecidableEq, Repr

/-- A stored `User` document (`server/models/User.js`), restricted to the
fields the socket layer reads or writes. -/
structure User where
  id : JSString
  username : JSString
  is_online : Bool
  fcm_tokens : List JSString
deriving DecidableEq, Repr

/-- The MongoDB state visible to the socket layer. -/
structure DB where
  users : List User
  conversations : List Conversation
  messages : List Message
deriving DecidableEq, Repr

/-- One socket emission: `io.to(target).emit(event, …)`.  `contentField`
records the plaintext `content` field of a `chat_message` payload (and
the reader id of a `conversation:read_ack`); other payload fields play no
role in any claim. -/
structure Emit where
  target : JSString
  event : JSString
  contentField : JSString
deriving DecidableEq, Repr

/-- One invocation of `admin.messaging().sendEachForMulticast` (the push
collaborator). -/
structure PushMsg where
  tokens : List JSString
  title : JSString
  body : JSString
  dataRoomId : JSString
  dataSenderId : JSString
deriving DecidableEq, Repr

/-! ## Shared helpers of the socket layer -/

/-- `mongoose.Types.ObjectId.isValid` on a string: a 24-character hex
string, or any 12-character string. -/
def isValidObjectId (s : JSString) : Bool :=
  (s.length = 24 && s.all fun c => (hexVal c).isSome) || s.length = 12

/-- `Conversation.findOne({ participants: { $all: [a, b] } })`: the first
stored conversation whose participant array contains both ids. -/
def findConvFor (db : DB) (a b : JSString) : Option Conversation :=
  db.conversations.find? fun c =>
    decide (a ∈ c.participants) && decide (b ∈ c.participants)

/-- `Conversation.findById(roomId)`: the first conversation with the
given id. -/
def findConv (db : DB) (roomId : JSString) : Option Conversation :=
  db.conversations.find? fun c => decide (c.id = roomId)

/-- `Message.findById(messageId)`: the first message with the given id. -/
def findMessage (db : DB) (mid : JSString) : Option Message :=
  db.messages.find? fun m => decide (m.id = mid)

/-- Saving a modified document found by `findById`: replaces the first
message with the given id. -/
def updateFirstMsg (f : Message → Message) (mid : JSString) :
    List Message → List Message
  | [] => []
  | m :: ms => if m.id = mid then f m :: ms else m :: updateFirstMsg f mid ms

/-- `Conversation.findByIdAndUpdate`: replaces the first conversation
with the given id. -/
def updateFirstConv (f : Conversation → Conversation) (roomId : JSString) :
    List Conversation → List Conversation
  | [] => []
  | c :: cs => if c.id = roomId then f c :: cs else c :: updateFirstConv f roomId cs

/-- The get-or-create conversation resolution shared by the
`join_private_chat` handler and the composite-`"idA_idB"` path of the
`chat_message` handler: `findOne({participants: {$all: [a, b]}})`, and on
a miss `new Conversation({participants: [a, b], last_message: preview})`
followed by `save()`.  The save throws (`none`) when mongoose cannot cast
a participant to an `ObjectId`. -/
def resolveConversation (db : DB) (a b : JSString) (freshId preview : JSString) :
    Option (JSString × DB) :=
  match findConvFor db a b with
  | some c => some (c.id, db)
  | none =>
    if isValidObjectId a && isValidObjectId b then
      some (freshId,
        { db with conversations :=
            db.conversations ++ [⟨freshId, [a, b], preview⟩] })
    else none

/-- The conversation resolution performed by the `join_private_chat`
handler (lines 140–150 of `socketHandler.js`), with its
`'Start of conversation'` initial preview. -/
def joinPrivateChatResolve (db : DB) (myUserId otherUserId freshId : JSString) :
    Option (JSString × DB) :=
  resolveConversation db myUserId otherUserId freshId
    ("Start of conversation".toList)

/-! ## The chat_message handler (lines 51–134 of `socketHandler.js`) -/

/-- The `MessageSchema` enum check on `type`. -/
def validType (ty : JSString) : Bool :=
  decide (ty = "text".toList) || decide (ty = "image".toList) ||
    decide (ty = "audio".toList)

/-- The fixed, privacy-preserving push notification body
(`"Tap to view message"`). -/
def pushBody : JSString := "Tap to view message".toList

/-- The push notification title: `` `New Message from ${user.username}` ``. -/
def pushTitle (senderName : JSString) : JSString :=
  "New Message from ".toList ++ senderName

/-- The registered push tokens of a user, `[]` when the user record is
missing. -/
def userTokens (db : DB) (p : JSString) : List JSString :=
  match db.users.find? fun u => decide (u.id = p) with
  | some u => u.fcm_tokens
  | none => []

/-- The offline-push gate of the handler: recipient record exists, is
not online, and has at least one registered token
(`recipient && !recipient.is_online && recipient.fcm_tokens &&
recipient.fcm_tokens.length > 0`). -/
def offlineWithTokens (db : DB) (p : JSString) : Bool :=
  match db.users.find? fun u => decide (u.id = p) with
  | some u => !u.is_online && decide (u.fcm_tokens ≠ [])
  | none => false

/-- The per-participant fan-out loop of the handler: a targeted
`chat_message` emit (carrying the plaintext content) to every
participant's personal channel, and for every participant other than the
sender who is offline with ≥1 token, one push invocation.  `pushOk`
models the outcome of the asynchronous push collaborator; a `false`
(rejected) push is caught by the inner `try/catch` and only logged. -/
def fanOut (db : DB) (senderId senderName roomId content : JSString)
    (pushOk : JSString → Bool) : List JSString → List Emit × List (PushMsg × Bool)
  | [] => ([], [])
  | p :: ps =>
    let rest := fanOut db senderId senderName roomId content pushOk ps
    ( ⟨p, "chat_message".toList, content⟩ :: rest.1,
      if p ≠ senderId ∧ offlineWithTokens db p then
        (⟨userTokens db p, pushTitle senderName, pushBody, roomId, senderId⟩,
          pushOk p) :: rest.2
      else rest.2 )

/-- The outcome of one `chat_message` event: the new database state, the
socket emissions, and the attempted push invocations (paired with the
collaborator's success/failure).  An exception anywhere aborts the
remaining steps but keeps earlier persisted writes — the handler's outer
`try/catch` only logs. -/
structure SendResult where
  db : DB
  emits : List Emit
  pushes : List (PushMsg × Bool)
deriving DecidableEq, Repr

/-- Lines 56–66 of the handler: when `roomId` is not a valid ObjectId
and splits on `'_'` into exactly two parts, get-or-create the
conversation for those parts (initial preview `'Start'`) and replace
`roomId` by its id; otherwise leave `roomId` as received.  `none` models
the thrown cast error of a failed `conv.save()`. -/
def resolveRoom (db : DB) (roomId0 freshConvId : JSString) :
    Option (JSString × DB) :=
  if isValidObjectId roomId0 then some (roomId0, db)
  else
    match splitOnChar '_' roomId0 with
    | [a, b] => resolveConversation db a b freshConvId ("Start".toList)
    | _ => some (roomId0, db)

/-- Lines 68–131 of the handler, after room resolution: encrypt is
already applied (`ec` is `encrypt(content)`); `new Message({...}).save()`
runs mongoose validation (`content` required — an empty string fails,
`type` in the enum, `conversation_id`/`sender_id` must cast to
ObjectIds), a failure throwing out of the handler; then
`Conversation.findByIdAndUpdate` rewrites the preview (`'📷 Image'` for
an image, the encrypted content otherwise), and when the conversation
exists the fan-out/push loop runs over its participants. -/
def persistAndFanOut (db1 : DB) (senderId senderName content roomId ty : JSString)
    (ec freshMsgId : JSString) (pushOk : JSString → Bool) : SendResult :=
  if decide (ec = []) || !validType ty ||
      !isValidObjectId roomId || !isValidObjectId senderId then
    ⟨db1, [], []⟩
  else
    let newMsg : Message := ⟨freshMsgId, roomId, senderId, ec, ty, .sent, false⟩
    let db2 : DB := { db1 with messages := db1.messages ++ [newMsg] }
    match findConv db2 roomId with
    | none => ⟨db2, [], []⟩
    | some c =>
      let preview := if ty = "image".toList then "📷 Image".toList else ec
      let db3 : DB :=
        { db2 with conversations :=
            (updateFirstConv (fun cv => { cv with last_message := preview })
              roomId db2.conversations) }
      let fo := fanOut db3 senderId senderName roomId content pushOk
        c.participants
      ⟨db3, fo.1, fo.2⟩

/-- The `chat_message` handler (lines 51–134), assembled from room
resolution, unconditional encryption of `content` (whatever `type`
is), persistence with validation, preview update, and fan-out. -/
def chatMessage (encC : List Nat → List Nat → List Nat)
    (strBytes : JSString → List Nat) (iv : List Nat) (db : DB)
    (senderId senderName content roomId0 ty : JSString)
    (freshConvId freshMsgId : JSString) (pushOk : JSString → Bool) :
    SendResult :=
  match resolveRoom db roomId0 freshConvId with
  | none => ⟨db, [], []⟩
  | some (roomId, db1) =>
    persistAndFanOut db1 senderId senderName content roomId ty
      (encrypt encC strBytes iv content) freshMsgId pushOk

/-! ## Read receipts, delivery, soft delete (lines 177–208) -/

/-- The `conversation:read` handler: guarded by
`mongoose.Types.ObjectId.isValid(roomId)`, then
`Message.updateMany({conversation_id: roomId, sender_id: {$ne: myUserId},
status: {$ne: 'read'}}, {$set: {status: 'read'}})`, then one
`conversation:read_ack` emit to the conversation channel. -/
def conversationRead (db : DB) (myUserId roomId : JSString) : DB × List Emit :=
  if isValidObjectId roomId then
    ({ db with messages := db.messages.map fun m =>
        if m.conversation_id = roomId ∧ m.sender_id ≠ myUserId ∧
            m.status ≠ Status.read
        then { m with status := Status.read } else m },
     [⟨roomId, "conversation:read_ack".toList, myUserId⟩])
  else (db, [])

/-- The `message:delivered` handler: `Message.findById`, and only when
the message exists with status `'sent'`, set status `'delivered'`, save,
and emit a `message:status_update`; otherwise nothing happens. -/
def messageDelivered (db : DB) (messageId roomId : JSString) : DB × List Emit :=
  match findMessage db messageId with
  | some m =>
    if m.status = Status.sent then
      ({ db with messages :=
          (updateFirstMsg (fun x => { x with status := Status.delivered })
            messageId db.messages) },
       [⟨roomId, "message:status_update".toList, []⟩])
    else (db, [])
  | none => (db, [])

/-- The `message:delete` handler: `Message.findById`; when the message is
missing or its `sender_id` differs from the requesting socket's user id,
return silently; otherwise set `isDeleted`, save, and emit
`message:deleted`. -/
def messageDelete (db : DB) (requesterId messageId roomId : JSString) :
    DB × List Emit :=
  match findMessage db messageId with
  | some m =>
    if m.sender_id = requesterId then
      ({ db with messages :=
          (updateFirstMsg (fun x => { x with isDeleted := true })
            messageId db.messages) },
       [⟨roomId, "message:deleted".toList, []⟩])
    else (db, [])
  | none => (db, [])

/-! ## Presence (lines 10–31, 44–48, 213–220) -/

/-- `Set.prototype.add`: append if not already present (JS sets keep
insertion order). -/
def addUnique (acc : List JSString) (x : JSString) : List JSString :=
  if x ∈ acc then acc else acc ++ [x]

/-- The inner `conv.participants.forEach` loop of
`getActiveChatPartners`: add every participant other than the user to
the set. -/
def collectPartners (userId : JSString) (acc : List JSString) :
    List JSString → List JSString
  | [] => acc
  | p :: ps =>
    collectPartners userId (if p = userId then acc else addUnique acc p) ps

/-- `getActiveChatPartners`: every user sharing at least one conversation
with `userId`, deduplicated, derived from
`Conversation.find({participants: userId})`. -/
def getActiveChatPartners (db : DB) (userId : JSString) : List JSString :=
  (db.conversations.filter fun c => decide (userId ∈ c.participants)).foldl
    (fun acc c => collectPartners userId acc c.participants) []

/-- `User.findByIdAndUpdate(userId, { is_online: b })`. -/
def setOnline (db : DB) (userId : JSString) (b : Bool) : DB :=
  { db with users := db.users.map fun u =>
      if u.id = userId then { u with is_online := b } else u }

/-- The connection block (lines 41–48): mark the user online and emit one
`user_status_change` to the personal channel of each active chat
partner. -/
def connectionHandler (db : DB) (userId : JSString) : DB × List Emit :=
  let db1 := setOnline db userId true
  (db1, (getActiveChatPartners db1 userId).map fun p =>
    ⟨p, "user_status_change".toList, []⟩)

/-- The disconnect handler (lines 213–220): mark the user offline and
emit one `user_status_change` to each active chat partner. -/
def disconnectHandler (db : DB) (userId : JSString) : DB × List Emit :=
  let db1 := setOnline db userId false
  (db1, (getActiveChatPartners db1 userId).map fun p =>
    ⟨p, "user_status_change".toList, []⟩)

/-! ## Supporting lemmas about the helpers -/

theorem find?_congr {α : Type} {p q : α → Bool} (h : ∀ x, p x = q x) :
    ∀ l : List α, l.find? p = l.find? q := by
  intro l
  induction l with
  | nil => rfl
  | cons x xs ih =>
    simp only [List.find?]
    rw [h x]
    cases q x <;> simp [ih]

theorem find?_append_of_none {α : Type} {p : α → Bool} {l1 : List α}
    (h : l1.find? p = none) (l2 : List α) :
    (l1 ++ l2).find? p = l2.find? p := by
  induction l1 with
  | nil => rfl
  | cons x xs ih =>
    have hx : p x = false := by
      have := List.find?_eq_none.mp h x (List.mem_cons_self _ _)
      simpa using this
    have hxs : xs.find? p = none := by
      rw [List.find?_eq_none] at h ⊢
      exact fun a ha => h a (List.mem_cons_of_mem _ ha)
    simp only [List.cons_append, List.find?, hx]
    exact ih hxs

theorem findConvFor_comm (db : DB) (a b : JSString) :
    findConvFor db b a = findConvFor db a b := by
  unfold findConvFor
  exact find?_congr (fun c => Bool.and_comm _ _) _

/-- `resolveConversation` never touches users or messages. -/
theorem resolveConversation_users_messages {db : DB} {a b f p rid : JSString}
    {db1 : DB} (h : resolveConversation db a b f p = some (rid, db1)) :
    db1.users = db.users ∧ db1.messages = db.messages := by
  unfold resolveConversation at h
  cases hf : findConvFor db a b with
  | some c => rw [hf] at h; simp at h; rw [← h.2]; exact ⟨rfl, rfl⟩
  | none =>
    rw [hf] at h
    by_cases hv : (isValidObjectId a && isValidObjectId b) = true
    · rw [if_pos hv] at h
      simp at h
      rw [← h.2]
      exact ⟨rfl, rfl⟩
    · rw [if_neg hv] at h
      exact absurd h (by simp)

/-- `resolveRoom` never touches users or messages. -/
theorem resolveRoom_users_messages {db : DB} {room0 f rid : JSString} {db1 : DB}
    (h : resolveRoom db room0 f = some (rid, db1)) :
    db1.users = db.users ∧ db1.messages = db.messages := by
  unfold resolveRoom at h
  by_cases hv : isValidObjectId room0 = true
  · rw [if_pos hv] at h
    simp at h
    rw [← h.2]
    exact ⟨rfl, rfl⟩
  · rw [if_neg hv] at h
    cases hs : splitOnChar '_' room0 with
    | nil => rw [hs] at h; simp at h; rw [← h.2]; exact ⟨rfl, rfl⟩
    | cons x xs =>
      cases xs with
      | nil =>
        rw [hs] at h; simp at h; rw [← h.2]; exact ⟨rfl, rfl⟩
      | cons y ys =>
        cases ys with
        | nil => rw [hs] at h; exact resolveConversation_users_messages h
        | cons z zs => rw [hs] at h; simp at h; rw [← h.2]; exact ⟨rfl, rfl⟩

theorem updateFirstMsg_forall2 (f : Message → Message) (mid : JSString)
    (R : Message → Message → Prop) (hrefl : ∀ x, R x x) :
    ∀ l : List Message,
      (∀ x, l.find? (fun m => decide (m.id = mid)) = some x → R x (f x)) →
      List.Forall₂ R l (updateFirstMsg f mid l) := by
  intro l
  induction l with
  | nil => intro _; exact List.Forall₂.nil
  | cons m ms ih =>
    intro hfind
    by_cases hm : m.id = mid
    · have hfst : (m :: ms).find? (fun x => decide (x.id = mid)) = some m :=
        List.find?_cons_of_pos _ (by simpa using hm)
      simp only [updateFirstMsg, if_pos hm]
      exact List.Forall₂.cons (hfind m hfst)
        (List.forall₂_same.mpr fun x _ => hrefl x)
    · simp only [updateFirstMsg, if_neg hm]
      refine List.Forall₂.cons (hrefl m) (ih ?_)
      intro x hx
      apply hfind
      rw [List.find?_cons_of_neg _ (by simpa using hm)]
      exact hx

/-- `updateFirstConv` leaves ids and participants unchanged when `f`
does. -/
theorem updateFirstConv_id_participants
    {f : Conversation → Conversation}
    (hf : ∀ c, (f c).id = c.id ∧ (f c).participants = c.participants)
    (roomId : JSString) :
    ∀ l : List Conversation,
      List.Forall₂ (fun old new => new.id = old.id ∧
        new.participants = old.participants) l (updateFirstConv f roomId l) := by
  intro l
  induction l with
  | nil => exact List.Forall₂.nil
  | cons c cs ih =>
    by_cases hc : c.id = roomId
    · simp only [updateFirstConv, if_pos hc]
      exact List.Forall₂.cons (hf c)
        (List.forall₂_same.mpr fun x _ => ⟨rfl, rfl⟩)
    · simp only [updateFirstConv, if_neg hc]
      exact List.Forall₂.cons ⟨rfl, rfl⟩ ih

theorem fanOut_emits (db : DB) (sid sn rid cont : JSString)
    (pushOk : JSString → Bool) (ps : List JSString) :
    (fanOut db sid sn rid cont pushOk ps).1 =
      ps.map fun p => ⟨p, "chat_message".toList, cont⟩ := by
  induction ps with
  | nil => rfl
  | cons p ps ih => simp only [fanOut, ih, List.map_cons]

theorem fanOut_pushes (db : DB) (sid sn rid cont : JSString)
    (pushOk : JSString → Bool) (ps : List JSString) :
    (fanOut db sid sn rid cont pushOk ps).2 =
      (ps.filter fun p => decide (p ≠ sid ∧ offlineWithTokens db p)).map
        fun p => (⟨userTokens db p, pushTitle sn, pushBody, rid, sid⟩,
          pushOk p) := by
  induction ps with
  | nil => rfl
  | cons p ps ih =>
    by_cases h : p ≠ sid ∧ offlineWithTokens db p
    · simp only [fanOut, if_pos h, ih, List.filter_cons]
      simp [h]
    · simp only [fanOut, if_neg h, ih, List.filter_cons]
      simp [h]

theorem mem_addUnique {x y : JSString} {l : List JSString} :
    x ∈ addUnique l y ↔ x ∈ l ∨ x = y := by
  unfold addUnique
  by_cases h : y ∈ l
  · rw [if_pos h]
    exact ⟨Or.inl, fun hor => hor.elim id (fun e => e ▸ h)⟩
  · rw [if_neg h]
    simp

theorem nodup_addUnique {l : List JSString} (h : l.Nodup) (y : JSString) :
    (addUnique l y).Nodup := by
  unfold addUnique
  by_cases hy : y ∈ l
  · rwa [if_pos hy]
  · rw [if_neg hy]
    simpa [List.nodup_append] using ⟨h, hy⟩

theorem mem_collectPartners {u x : JSString} :
    ∀ (ps : List JSString) (acc : List JSString),
      x ∈ collectPartners u acc ps ↔ x ∈ acc ∨ (x ∈ ps ∧ x ≠ u) := by
  intro ps
  induction ps with
  | nil => intro acc; simp [collectPartners]
  | cons p ps ih =>
    intro acc
    simp only [collectPartners]
    rw [ih]
    by_cases hp : p = u
    · subst hp
      simp only [if_pos rfl, List.mem_cons]
      constructor
      · rintro (h | ⟨h1, h2⟩)
        · exact Or.inl h
        · exact Or.inr ⟨Or.inr h1, h2⟩
      · rintro (h | ⟨h1 | h1, h2⟩)
        · exact Or.inl h
        · exact absurd h1 h2
        · exact Or.inr ⟨h1, h2⟩
    · simp only [if_neg hp, mem_addUnique, List.mem_cons]
      constructor
      · rintro ((h | h) | ⟨h1, h2⟩)
        · exact Or.inl h
        · exact Or.inr ⟨Or.inl h, h ▸ hp⟩
        · exact Or.inr ⟨Or.inr h1, h2⟩
      · rintro (h | ⟨h1 | h1, h2⟩)
        · exact Or.inl (Or.inl h)
        · exact Or.inl (Or.inr h1)
        · exact Or.inr ⟨h1, h2⟩

theorem nodup_collectPartners {u : JSString} :
    ∀ (ps : List JSString) (acc : List JSString), acc.Nodup →
      (collectPartners u acc ps).Nodup := by
  intro ps
  induction ps with
  | nil => intro acc h; exact h
  | cons p ps ih =>
    intro acc h
    simp only [collectPartners]
    apply ih
    by_cases hp : p = u
    · rwa [if_pos hp]
    · rw [if_neg hp]
      exact nodup_addUnique h p

theorem mem_foldl_collectPartners {u x : JSString} :
    ∀ (L : List Conversation) (acc : List JSString),
      x ∈ L.foldl (fun acc c => collectPartners u acc c.participants) acc ↔
        x ∈ acc ∨ ∃ c ∈ L, x ∈ c.participants ∧ x ≠ u := by
  intro L
  induction L with
  | nil => intro acc; simp
  | cons c L ih =>
    intro acc
    simp only [List.foldl_cons]
    rw [ih, mem_collectPartners]
    constructor
    · rintro ((h | ⟨h1, h2⟩) | ⟨c', hc', h1, h2⟩)
      · exact Or.inl h
      · exact Or.inr ⟨c, List.mem_cons_self _ _, h1, h2⟩
      · exact Or.inr ⟨c', List.mem_cons_of_mem _ hc', h1, h2⟩
    · rintro (h | ⟨c', hc', h1, h2⟩)
      · exact Or.inl (Or.inl h)
      · rcases List.mem_cons.mp hc' with he | hm
        · exact Or.inl (Or.inr ⟨he ▸ h1, h2⟩)
        · exact Or.inr ⟨c', hm, h1, h2⟩

theorem nodup_foldl_collectPartners {u : JSString} :
    ∀ (L : List Conversation) (acc : List JSString), acc.Nodup →
      (L.foldl (fun acc c => collectPartners u acc c.participants) acc).Nodup := by
  intro L
  induction L with
  | nil => intro acc h; exact h
  | cons c L ih =>
    intro acc h
    exact ih _ (nodup_collectPartners _ _ h)

/-- Membership characterisation of `getActiveChatPartners`: exactly the
users other than `u` who share at least one stored conversation with
`u`. -/
theorem mem_getActiveChatPartners (db : DB) (u x : JSString) :
    x ∈ getActiveChatPartners db u ↔
      x ≠ u ∧ ∃ c ∈ db.conversations, u ∈ c.participants ∧
        x ∈ c.participants := by
  unfold getActiveChatPartners
  rw [mem_foldl_collectPartners]
  simp only [List.not_mem_nil, false_or, List.mem_filter, decide_eq_true_eq]
  constructor
  · rintro ⟨c, ⟨hc, hu⟩, hx, hne⟩
    exact ⟨hne, c, hc, hu, hx⟩
  · rintro ⟨hne, c, hc, hu, hx⟩
    exact ⟨c, ⟨hc, hu⟩, hx, hne⟩

theorem nodup_getActiveChatPartners (db : DB) (u : JSString) :
    (getActiveChatPartners db u).Nodup :=
  nodup_foldl_collectPartners _ _ List.nodup_nil

/-! ## Characterisation of the chat_message stages -/

/-- When mongoose validation rejects the new message (empty required
content, a type outside the enum, or a failing ObjectId cast), the
handler aborts with no further writes and no emissions. -/
theorem persistAndFanOut_invalid (db1 : DB)
    (sid sn content roomId ty ec fm : JSString) (pushOk : JSString → Bool)
    (h : (decide (ec = []) || !validType ty ||
        !isValidObjectId roomId || !isValidObjectId sid) = true) :
    persistAndFanOut db1 sid sn content roomId ty ec fm pushOk =
      ⟨db1, [], []⟩ := by
  unfold persistAndFanOut
  rw [if_pos h]

/-- The success path of `persistAndFanOut`: validation passes and the
conversation exists, so the message is persisted, the preview rewritten,
and the fan-out/push loop runs over the conversation's participants. -/
theorem persistAndFanOut_success (db1 : DB)
    (sid sn content roomId ty ec fm : JSString) (pushOk : JSString → Bool)
    (c : Conversation)
    (hec : ec ≠ []) (hty : validType ty = true)
    (hroom : isValidObjectId roomId = true)
    (hsid : isValidObjectId sid = true)
    (hc : findConv db1 roomId = some c) :
    persistAndFanOut db1 sid sn content roomId ty ec fm pushOk =
      ⟨{ users := db1.users,
         conversations :=
           (updateFirstConv
             (fun cv => { cv with last_message :=
               if ty = "image".toList then "📷 Image".toList else ec })
             roomId db1.conversations),
         messages := db1.messages ++ [⟨fm, roomId, sid, ec, ty, .sent, false⟩] },
       c.participants.map fun p => ⟨p, "chat_message".toList, content⟩,
       (c.participants.filter fun p =>
           decide (p ≠ sid ∧ offlineWithTokens db1 p)).map
         fun p => (⟨userTokens db1 p, pushTitle sn, pushBody, roomId, sid⟩,
           pushOk p)⟩ := by
  unfold persistAndFanOut
  have hcond : (decide (ec = []) || !validType ty ||
      !isValidObjectId roomId || !isValidObjectId sid) = false := by
    simp [hec, hty, hroom, hsid]
  rw [if_neg (by rw [hcond]; exact Bool.false_ne_true)]
  have hc2 : findConv { db1 with messages :=
      db1.messages ++ [⟨fm, roomId, sid, ec, ty, .sent, false⟩] } roomId =
      some c := hc
  simp only [hc2, fanOut_emits, fanOut_pushes]
  rfl

/-- Whatever path `persistAndFanOut` takes, the stored messages either
stay unchanged or receive exactly one appended message with status
`sent`. -/
theorem persistAndFanOut_messages (db1 : DB)
    (sid sn content roomId ty ec fm : JSString) (pushOk : JSString → Bool) :
    (persistAndFanOut db1 sid sn content roomId ty ec fm pushOk).db.messages =
      db1.messages ∨
    ∃ nm, (persistAndFanOut db1 sid sn content roomId ty ec fm
        pushOk).db.messages = db1.messages ++ [nm] ∧
      nm.status = Status.sent := by
  unfold persistAndFanOut
  by_cases hcond : (decide (ec = []) || !validType ty ||
      !isValidObjectId roomId || !isValidObjectId sid) = true
  · rw [if_pos hcond]
    exact Or.inl rfl
  · rw [if_neg hcond]
    dsimp only
    cases hc : findConv { db1 with messages := db1.messages ++
        [⟨fm, roomId, sid, ec, ty, .sent, false⟩] } roomId with
    | none => exact Or.inr ⟨_, rfl, rfl⟩
    | some c => exact Or.inr ⟨_, rfl, rfl⟩

/-- Whatever path the `chat_message` handler takes, the stored messages
either stay unchanged or receive exactly one appended message whose
status is `sent`. -/
theorem chatMessage_messages (encC : List Nat → List Nat → List Nat)
    (sb : JSString → List Nat) (iv : List Nat) (db : DB)
    (sid sn content room0 ty f1 f2 : JSString) (pushOk : JSString → Bool) :
    (chatMessage encC sb iv db sid sn content room0 ty f1 f2 pushOk).db.messages =
      db.messages ∨
    ∃ nm, (chatMessage encC sb iv db sid sn content room0 ty f1 f2
        pushOk).db.messages = db.messages ++ [nm] ∧ nm.status = Status.sent := by
  unfold chatMessage
  cases hr : resolveRoom db room0 f1 with
  | none => exact Or.inl rfl
  | some pair =>
    obtain ⟨roomId, db1⟩ := pair
    have hmsg : db1.messages = db.messages := (resolveRoom_users_messages hr).2
    dsimp only
    rcases persistAndFanOut_messages db1 sid sn content roomId ty
        (encrypt encC sb iv content) f2 pushOk with h | ⟨nm, h1, h2⟩
    · left
      rw [h, hmsg]
    · right
      exact ⟨nm, by rw [h1, hmsg], h2⟩

/-! ## Concrete instances used by witnesses and counterexamples

`encC0`/`decC0` instantiate the external cipher interface and
`sb0`/`b2s0` the byte codec.  The ids are 12-character strings, which
`mongoose.Types.ObjectId.isValid` accepts. -/

def encC0 : List Nat → List Nat → List Nat := fun _ pt => pt

/-- A decipher instance respecting the structural checks Node's
decipher performs unconditionally, independent of the key:
`createDecipheriv` throws for any iv that is not 16 bytes, and `final`
throws for a ciphertext that is empty or not a whole number of 16-byte
blocks.  On structurally valid input it stands for one possible
key-dependent outcome.  It is used only in witnesses along paths where
the decipher is never consulted. -/
def decC0 : List Nat → List Nat → Option (List Nat) := fun iv ct =>
  if iv.length = 16 ∧ ct ≠ [] ∧ ct.length % 16 = 0 then some ct else none

def sb0 : JSString → List Nat := fun s => s.map Char.toNat

def b2s0 : List Nat → JSString := fun bs => bs.map Char.ofNat

def uidA : JSString := "aaaaaaaaaaaa".toList

def uidB : JSString := "bbbbbbbbbbbb".toList

def uidC : JSString := "cccccccccccc".toList

def uidS : JSString := "ssssssssssss".toList

def uidT : JSString := "tttttttttttt".toList

def ridR : JSString := "rrrrrrrrrrrr".toList

def midM : JSString := "mmmmmmmmmmmm".toList

def msgD0 : Message :=
  ⟨midM, ridR, uidA, "00:62".toList, "text".toList, Status.delivered, false⟩

def dbD : DB := ⟨[], [], [msgD0]⟩

theorem statusRank_le_two (s : Status) : statusRank s ≤ 2 := by
  cases s <;> simp [statusRank]

/-- C1.  Delivery status is monotonic along sent → delivered → read for
every stored message, under every operation of the socket layer: the
`message:delivered` handler raises statuses only (and is a no-op, not an
error, when the found message is not in status `sent`), `conversation:read`
raises statuses only, `message:delete` leaves every status unchanged,
`chat_message` only appends a fresh message with status `sent`, and the
presence handlers never touch messages. -/
theorem c1_status_monotonic :
    (∀ (db : DB) (mid room : JSString), List.Forall₂
        (fun old new => statusRank old.status ≤ statusRank new.status)
        db.messages ((messageDelivered db mid room).1).messages) ∧
    (∀ (db : DB) (mid room : JSString) (m : Message),
        findMessage db mid = some m → m.status ≠ Status.sent →
        messageDelivered db mid room = (db, [])) ∧
    (∀ (db : DB) (reader room : JSString), List.Forall₂
        (fun old new => statusRank old.status ≤ statusRank new.status)
        db.messages ((conversationRead db reader room).1).messages) ∧
    (∀ (db : DB) (req mid room : JSString), List.Forall₂
        (fun old new => new.status = old.status)
        db.messages ((messageDelete db req mid room).1).messages) ∧
    (∀ (encC : List Nat → List Nat → List Nat) (sb : JSString → List Nat)
        (iv : List Nat) (db : DB) (sid sn content room0 ty f1 f2 : JSString)
        (pok : JSString → Bool),
        (chatMessage encC sb iv db sid sn content room0 ty f1 f2
            pok).db.messages = db.messages ∨
        ∃ nm, (chatMessage encC sb iv db sid sn content room0 ty f1 f2
            pok).db.messages = db.messages ++ [nm] ∧
          nm.status = Status.sent) ∧
    (∀ (db : DB) (u : JSString),
        ((connectionHandler db u).1).messages = db.messages ∧
        ((disconnectHandler db u).1).messages = db.messages) := by
  refine ⟨?_, ?_, ?_, ?_, ?_, ?_⟩
  · intro db mid room
    unfold messageDelivered
    cases hf : findMessage db mid with
    | none => exact List.forall₂_same.mpr fun x _ => le_refl _
    | some m =>
      dsimp only
      by_cases hs : m.status = Status.sent
      · rw [if_pos hs]
        apply updateFirstMsg_forall2 _ _
          (fun old new => statusRank old.status ≤ statusRank new.status)
          (fun x => le_refl _)
        intro x hx
        have hxm : x = m := by
          have : findMessage db mid = some x := hx
          rw [hf] at this
          exact (Option.some.injEq _ _ ▸ this).symm ▸ rfl
        subst hxm
        rw [hs]
        simp [statusRank]
      · rw [if_neg hs]
        exact List.forall₂_same.mpr fun x _ => le_refl _
  · intro db mid room m hf hs
    unfold messageDelivered
    rw [hf]
    dsimp only
    rw [if_neg hs]
  · intro db reader room
    unfold conversationRead
    by_cases hv : isValidObjectId room = true
    · rw [if_pos hv]
      dsimp only
      rw [List.forall₂_map_right_iff]
      apply List.forall₂_same.mpr
      intro m _
      by_cases hcond : m.conversation_id = room ∧ m.sender_id ≠ reader ∧
          m.status ≠ Status.read
      · rw [if_pos hcond]
        exact statusRank_le_two _
      · rw [if_neg hcond]
    · rw [if_neg hv]
      exact List.forall₂_same.mpr fun x _ => le_refl _
  · intro db req mid room
    unfold messageDelete
    cases hf : findMessage db mid with
    | none => exact List.forall₂_same.mpr fun x _ => rfl
    | some m =>
      dsimp only
      by_cases hs : m.sender_id = req
      · rw [if_pos hs]
        exact updateFirstMsg_forall2 _ _
          (fun old new => new.status = old.status) (fun x => rfl) _
          (fun x _ => rfl)
      · rw [if_neg hs]
        exact List.forall₂_same.mpr fun x _ => rfl
  · intro encC sb iv db sid sn content room0 ty f1 f2 pok
    exact chatMessage_messages encC sb iv db sid sn content room0 ty f1 f2 pok
  · intro db u
    exact ⟨rfl, rfl⟩

/-- Witness for C1: a concrete already-delivered message makes the
`message:delivered` handler a strict no-op. -/
theorem c1_status_monotonic_witness :
    findMessage dbD midM = some msgD0 ∧ msgD0.status ≠ Status.sent ∧
      messageDelivered dbD midM ridR = (dbD, []) :=
  ⟨rfl, by decide, c1_status_monotonic.2.1 dbD midM ridR msgD0 rfl (by decide)⟩

/-- C2.  The get-or-create resolution over an unordered pair of distinct
user ids is idempotent and order-insensitive: one resolution possibly
creates a single conversation with participant list `[a, b]`, and every
further resolution — in either order, with any fresh id and preview —
returns the same conversation id and leaves the database unchanged. -/
theorem c2_resolve_idempotent (db : DB) (a b f1 f2 p1 p2 : JSString)
    (ha : isValidObjectId a = true) (hb : isValidObjectId b = true)
    (hab : a ≠ b) :
    ∃ id1 db1, resolveConversation db a b f1 p1 = some (id1, db1) ∧
      resolveConversation db1 b a f2 p2 = some (id1, db1) ∧
      resolveConversation db1 a b f2 p2 = some (id1, db1) ∧
      (db1.conversations = db.conversations ∨
        db1.conversations = db.conversations ++ [⟨f1, [a, b], p1⟩]) ∧
      (findConvFor db a b ≠ none → db1 = db) := by
  cases hf : findConvFor db a b with
  | some c =>
    refine ⟨c.id, db, ?_, ?_, ?_, Or.inl rfl, fun _ => rfl⟩
    · unfold resolveConversation
      rw [hf]
    · unfold resolveConversation
      rw [findConvFor_comm db a b, hf]
    · unfold resolveConversation
      rw [hf]
  | none =>
    have hv : (isValidObjectId a && isValidObjectId b) = true := by
      rw [ha, hb]; rfl
    refine ⟨f1, { db with conversations :=
        db.conversations ++ [⟨f1, [a, b], p1⟩] }, ?_, ?_, ?_, Or.inr rfl, ?_⟩
    · unfold resolveConversation
      rw [hf, if_pos hv]
    · have hfind : findConvFor { db with conversations :=
          db.conversations ++ [⟨f1, [a, b], p1⟩] } b a =
          some ⟨f1, [a, b], p1⟩ := by
        unfold findConvFor at hf ⊢
        dsimp only
        rw [find?_append_of_none]
        · simp
        · rw [find?_congr (fun c => Bool.and_comm _ _)]
          exact hf
      unfold resolveConversation
      rw [hfind]
    · have hfind : findConvFor { db with conversations :=
          db.conversations ++ [⟨f1, [a, b], p1⟩] } a b =
          some ⟨f1, [a, b], p1⟩ := by
        unfold findConvFor at hf ⊢
        dsimp only
        rw [find?_append_of_none hf]
        simp
      unfold resolveConversation
      rw [hfind]
    · intro hne
      exact absurd rfl hne

/-- Witness for C2: resolving the pair (uidA, uidB) on an empty store
creates one conversation; the reversed resolution returns the same id
without a second creation. -/
theorem c2_resolve_idempotent_witness :
    isValidObjectId uidA = true ∧ isValidObjectId uidB = true ∧
      uidA ≠ uidB ∧
      (∃ id1 db1,
        resolveConversation ⟨[], [], []⟩ uidA uidB ridR ("Start".toList) =
          some (id1, db1) ∧
        resolveConversation db1 uidB uidA midM ("Start".toList) =
          some (id1, db1) ∧
        resolveConversation db1 uidA uidB midM ("Start".toList) =
          some (id1, db1) ∧
        (db1.conversations = (⟨[], [], []⟩ : DB).conversations ∨
          db1.conversations = (⟨[], [], []⟩ : DB).conversations ++
            [⟨ridR, [uidA, uidB], "Start".toList⟩]) ∧
        (findConvFor ⟨[], [], []⟩ uidA uidB ≠ none → db1 = ⟨[], [], []⟩)) :=
  ⟨by decide, by decide, by decide,
    c2_resolve_idempotent ⟨[], [], []⟩ uidA uidB ridR midM ("Start".toList)
      ("Start".toList) (by decide) (by decide) (by decide)⟩

/-- C4.  For a `conversation:read` event with a valid conversation id,
position by position, exactly the messages of that conversation whose
sender is not the reader and whose status is not already `read` move to
status `read` (everything else about them unchanged), and every other
message — in particular every message sent by the reader — is left
entirely unchanged. -/
theorem c4_mark_read (db : DB) (reader room : JSString)
    (h : isValidObjectId room = true) :
    List.Forall₂ (fun old new =>
      ((old.conversation_id = room ∧ old.sender_id ≠ reader ∧
          old.status ≠ Status.read) →
        new = { old with status := Status.read }) ∧
      (¬(old.conversation_id = room ∧ old.sender_id ≠ reader ∧
          old.status ≠ Status.read) → new = old))
      db.messages ((conversationRead db reader room).1).messages := by
  unfold conversationRead
  rw [if_pos h]
  dsimp only
  rw [List.forall₂_map_right_iff]
  apply List.forall₂_same.mpr
  intro m _
  constructor
  · intro hc
    rw [if_pos hc]
  · intro hc
    rw [if_neg hc]

def msgFromB : Message :=
  ⟨"nnnnnnnnnnnn".toList, ridR, uidB, "00:62".toList, "text".toList,
    Status.sent, false⟩

def msgFromA : Message :=
  ⟨midM, ridR, uidA, "00:63".toList, "text".toList, Status.sent, false⟩

def dbR : DB := ⟨[], [], [msgFromA, msgFromB]⟩

/-- Witness for C4: reader `uidA` marks the counterpart's message read
and leaves their own `sent` message untouched. -/
theorem c4_mark_read_witness :
    isValidObjectId ridR = true ∧
      (List.Forall₂ (fun old new =>
        ((old.conversation_id = ridR ∧ old.sender_id ≠ uidA ∧
            old.status ≠ Status.read) →
          new = { old with status := Status.read }) ∧
        (¬(old.conversation_id = ridR ∧ old.sender_id ≠ uidA ∧
            old.status ≠ Status.read) → new = old))
        dbR.messages ((conversationRead dbR uidA ridR).1).messages) ∧
      ((conversationRead dbR uidA ridR).1).messages =
        [msgFromA, { msgFromB with status := Status.read }] :=
  ⟨by decide, c4_mark_read dbR uidA ridR (by decide), by decide⟩

/-- C9.  `message:delete` sets the soft-delete flag only when the
requester is the stored sender: a missing message or a foreign requester
produces no state change and no emission (silent ignore); an authorised
request flips `isDeleted` on that message and changes nothing else about
any message. -/
theorem c9_soft_delete :
    (∀ (db : DB) (req mid room : JSString), findMessage db mid = none →
        messageDelete db req mid room = (db, [])) ∧
    (∀ (db : DB) (req mid room : JSString) (m : Message),
        findMessage db mid = some m → m.sender_id ≠ req →
        messageDelete db req mid room = (db, [])) ∧
    (∀ (db : DB) (req mid room : JSString) (m : Message),
        findMessage db mid = some m → m.sender_id = req →
        messageDelete db req mid room =
          ({ db with messages :=
              (updateFirstMsg (fun x => { x with isDeleted := true })
                mid db.messages) },
           [⟨room, "message:deleted".toList, []⟩]) ∧
        List.Forall₂ (fun old new => new.id = old.id ∧
            new.conversation_id = old.conversation_id ∧
            new.sender_id = old.sender_id ∧ new.content = old.content ∧
            new.type = old.type ∧ new.status = old.status)
          db.messages ((messageDelete db req mid room).1).messages) := by
  refine ⟨?_, ?_, ?_⟩
  · intro db req mid room hf
    unfold messageDelete
    rw [hf]
  · intro db req mid room m hf hs
    unfold messageDelete
    rw [hf]
    dsimp only
    rw [if_neg hs]
  · intro db req mid room m hf hs
    constructor
    · unfold messageDelete
      rw [hf]
      dsimp only
      rw [if_pos hs]
    · unfold messageDelete
      rw [hf]
      dsimp only
      rw [if_pos hs]
      exact updateFirstMsg_forall2 _ _
        (fun old new => new.id = old.id ∧
          new.conversation_id = old.conversation_id ∧
          new.sender_id = old.sender_id ∧ new.content = old.content ∧
          new.type = old.type ∧ new.status = old.status)
        (fun x => ⟨rfl, rfl, rfl, rfl, rfl, rfl⟩) _
        (fun x _ => ⟨rfl, rfl, rfl, rfl, rfl, rfl⟩)

/-- Witness for C9: a foreign requester (`uidC`) cannot delete `uidA`'s
message — the request is silently ignored. -/
theorem c9_soft_delete_witness :
    findMessage dbD midM = some msgD0 ∧ msgD0.sender_id ≠ uidC ∧
      messageDelete dbD uidC midM ridR = (dbD, []) :=
  ⟨rfl, by decide, c9_soft_delete.2.1 dbD uidC midM ridR msgD0 rfl (by decide)⟩

/-- C8.  On connect and on disconnect of a user `u`, a
`user_status_change` event is emitted individually — once each, via the
personal channel — to exactly the users sharing at least one stored
conversation with `u`, and to nobody else; every emission carries an
explicit target, never a broadcast. -/
theorem c8_presence_targeted (db : DB) (u : JSString) :
    (∀ p, (∃ e ∈ (connectionHandler db u).2, e.target = p) ↔
        (p ≠ u ∧ ∃ c ∈ db.conversations, u ∈ c.participants ∧
          p ∈ c.participants)) ∧
    ((connectionHandler db u).2.map Emit.target).Nodup ∧
    (∀ e ∈ (connectionHandler db u).2,
        e.event = "user_status_change".toList) ∧
    (∀ p, (∃ e ∈ (disconnectHandler db u).2, e.target = p) ↔
        (p ≠ u ∧ ∃ c ∈ db.conversations, u ∈ c.participants ∧
          p ∈ c.participants)) ∧
    ((disconnectHandler db u).2.map Emit.target).Nodup ∧
    (∀ e ∈ (disconnectHandler db u).2,
        e.event = "user_status_change".toList) := by
  have hmemT : ∀ p, p ∈ getActiveChatPartners (setOnline db u true) u ↔
      p ≠ u ∧ ∃ c ∈ db.conversations, u ∈ c.participants ∧
        p ∈ c.participants :=
    fun p => mem_getActiveChatPartners (setOnline db u true) u p
  have hmemF : ∀ p, p ∈ getActiveChatPartners (setOnline db u false) u ↔
      p ≠ u ∧ ∃ c ∈ db.conversations, u ∈ c.participants ∧
        p ∈ c.participants :=
    fun p => mem_getActiveChatPartners (setOnline db u false) u p
  refine ⟨?_, ?_, ?_, ?_, ?_, ?_⟩
  · intro p
    constructor
    · rintro ⟨e, he, ht⟩
      rcases List.mem_map.mp he with ⟨q, hq, rfl⟩
      have : q = p := ht
      subst this
      exact (hmemT q).mp hq
    · rintro ⟨hne, hc⟩
      have hq : p ∈ getActiveChatPartners (setOnline db u true) u :=
        (hmemT p).mpr ⟨hne, hc⟩
      exact ⟨⟨p, "user_status_change".toList, []⟩,
        List.mem_map_of_mem _ hq, rfl⟩
  · have : ((connectionHandler db u).2.map Emit.target) =
        getActiveChatPartners (setOnline db u true) u := by
      unfold connectionHandler
      rw [List.map_map]
      exact List.map_id _
    rw [this]
    exact nodup_getActiveChatPartners _ _
  · intro e he
    rcases List.mem_map.mp he with ⟨q, _, rfl⟩
    rfl
  · intro p
    constructor
    · rintro ⟨e, he, ht⟩
      rcases List.mem_map.mp he with ⟨q, hq, rfl⟩
      have : q = p := ht
      subst this
      exact (hmemF q).mp hq
    · rintro ⟨hne, hc⟩
      have hq : p ∈ getActiveChatPartners (setOnline db u false) u :=
        (hmemF p).mpr ⟨hne, hc⟩
      exact ⟨⟨p, "user_status_change".toList, []⟩,
        List.mem_map_of_mem _ hq, rfl⟩
  · have : ((disconnectHandler db u).2.map Emit.target) =
        getActiveChatPartners (setOnline db u false) u := by
      unfold disconnectHandler
      rw [List.map_map]
      exact List.map_id _
    rw [this]
    exact nodup_getActiveChatPartners _ _
  · intro e he
    rcases List.mem_map.mp he with ⟨q, _, rfl⟩
    rfl

def convAB : Conversation := ⟨ridR, [uidA, uidB], "Start".toList⟩

def dbP : DB :=
  ⟨[⟨uidA, "A".toList, false, []⟩, ⟨uidB, "B".toList, false, []⟩,
    ⟨uidC, "C".toList, false, []⟩], [convAB], []⟩

/-- Witness for C8: when `uidA` connects, their conversation partner
`uidB` is notified and the unrelated `uidC` is not. -/
theorem c8_presence_targeted_witness :
    (∃ e ∈ (connectionHandler dbP uidA).2, e.target = uidB) ∧
      ¬(∃ e ∈ (connectionHandler dbP uidA).2, e.target = uidC) :=
  ⟨((c8_presence_targeted dbP uidA).1 uidB).mpr
      ⟨by decide, convAB, by decide, by decide, by decide⟩,
    fun h =>
      by
        have := ((c8_presence_targeted dbP uidA).1 uidC).mp h
        rcases this with ⟨_, c, hc, hu, hp⟩
        have hcab : c = convAB := by
          rcases List.mem_cons.mp hc with h1 | h1
          · exact h1
          · exact absurd h1 (List.not_mem_nil c)
        subst hcab
        exact absurd hp (by decide)⟩

/-- C5 (amended).  On a successful `chat_message` send the
confidentiality codec is applied to the content *uniformly, whatever the
message type*: the persisted content is the codec output of the
user-supplied content for `text`, `image` and `audio` alike — image and
audio URLs are encrypted at rest too (and transparently decrypted on
read), contrary to the original claim that they pass through
unencrypted. -/
theorem c5_codec_applied_uniformly (encC : List Nat → List Nat → List Nat)
    (sb : JSString → List Nat) (iv : List Nat) (db : DB)
    (sid sn content room ty f1 f2 : JSString) (pok : JSString → Bool)
    (c : Conversation)
    (hroom : isValidObjectId room = true)
    (hec : encrypt encC sb iv content ≠ [])
    (hty : validType ty = true)
    (hsid : isValidObjectId sid = true)
    (hc : findConv db room = some c) :
    (chatMessage encC sb iv db sid sn content room ty f1 f2
        pok).db.messages =
      db.messages ++
        [⟨f2, room, sid, encrypt encC sb iv content, ty, Status.sent,
          false⟩] := by
  unfold chatMessage
  have hr : resolveRoom db room f1 = some (room, db) := by
    unfold resolveRoom
    rw [if_pos hroom]
  rw [hr]
  dsimp only
  rw [persistAndFanOut_success db sid sn content room ty
    (encrypt encC sb iv content) f2 pok c hec hty hroom hsid hc]

/-- Witness for C5's amended statement: a concrete `audio` send whose
persisted content is the codec output of the storage URL. -/
theorem c5_codec_applied_uniformly_witness :
    isValidObjectId ridR = true ∧
      encrypt encC0 sb0 [0] ("http://u".toList) ≠ [] ∧
      validType ("audio".toList) = true ∧
      isValidObjectId uidA = true ∧
      findConv dbP ridR = some convAB ∧
      (chatMessage encC0 sb0 [0] dbP uidA ("A".toList) ("http://u".toList)
          ridR ("audio".toList) uidC midM (fun _ => true)).db.messages =
        dbP.messages ++
          [⟨midM, ridR, uidA, encrypt encC0 sb0 [0] ("http://u".toList),
            "audio".toList, Status.sent, false⟩] :=
  ⟨by decide, by decide, by decide, by decide, rfl,
    c5_codec_applied_uniformly encC0 sb0 [0] dbP uidA ("A".toList)
      ("http://u".toList) ridR ("audio".toList) uidC midM (fun _ => true)
      convAB (by decide) (by decide) (by decide) (by decide) rfl⟩

/-- Counterexample to C5 as stated: a concrete `image` send is persisted
with its content *encrypted* (the codec output `"00:…"`), not with the
opaque URL itself. -/
theorem c5_counterexample :
    ((chatMessage encC0 sb0 [0] dbP uidA ("A".toList) ("http://u".toList)
        ridR ("image".toList) uidC midM (fun _ => true)).db.messages.map
      Message.content) =
      [encrypt encC0 sb0 [0] ("http://u".toList)] ∧
    encrypt encC0 sb0 [0] ("http://u".toList) ≠ "http://u".toList := by
  constructor
  · rfl
  · decide

/-- C6 (amended).  A `chat_message` event whose body is empty for
type=text, or whose type is outside the recognised enum, is rejected by
mongoose validation with no state change — no Message persisted, no
Conversation updated, no emission — and the handler returns normally
(the connection stays open), *provided the room reference is a canonical
conversation id*.  (With a composite `"idA_idB"` token for a pair with
no existing conversation, the get-or-create step still creates a
Conversation before validation fails — see the counterexample.) -/
theorem c6_invalid_message_rejected (encC : List Nat → List Nat → List Nat)
    (sb : JSString → List Nat) (iv : List Nat) (db : DB)
    (sid sn content room ty f1 f2 : JSString) (pok : JSString → Bool)
    (hroom : isValidObjectId room = true)
    (hbad : (content = [] ∧ ty = "text".toList) ∨ validType ty = false) :
    chatMessage encC sb iv db sid sn content room ty f1 f2 pok =
      ⟨db, [], []⟩ := by
  unfold chatMessage
  have hr : resolveRoom db room f1 = some (room, db) := by
    unfold resolveRoom
    rw [if_pos hroom]
  rw [hr]
  dsimp only
  apply persistAndFanOut_invalid
  rcases hbad with ⟨hcontent, _⟩ | hty
  · have : encrypt encC sb iv content = [] := by
      rw [hcontent]
      rfl
    simp [this]
  · simp [hty]

/-- Witness for C6's amended statement: an empty text body to a
canonical room id changes nothing and emits nothing. -/
theorem c6_invalid_message_rejected_witness :
    isValidObjectId ridR = true ∧
      (([] : JSString) = [] ∧ "text".toList = "text".toList) ∧
      chatMessage encC0 sb0 [0] dbP uidA ("A".toList) [] ridR
          ("text".toList) uidC midM (fun _ => true) = ⟨dbP, [], []⟩ :=
  ⟨by decide, ⟨rfl, rfl⟩,
    c6_invalid_message_rejected encC0 sb0 [0] dbP uidA ("A".toList) []
      ridR ("text".toList) uidC midM (fun _ => true) (by decide)
      (Or.inl ⟨rfl, rfl⟩)⟩

/-- Counterexample to C6 as stated: an empty text body sent with a
composite `"idA_idB"` room token for a pair with no prior conversation
*does* change state — the get-or-create step persists a new Conversation
before message validation fails. -/
theorem c6_counterexample :
    (chatMessage encC0 sb0 [0] ⟨[], [], []⟩ uidS ("S".toList) []
        ("aaaaaaaaaaaa_bbbbbbbbbbbb".toList) ("text".toList) uidC midM
        (fun _ => true)).db.conversations =
      [⟨uidC, [uidA, uidB], "Start".toList⟩] ∧
    (chatMessage encC0 sb0 [0] ⟨[], [], []⟩ uidS ("S".toList) []
        ("aaaaaaaaaaaa_bbbbbbbbbbbb".toList) ("text".toList) uidC midM
        (fun _ => true)).db ≠ (⟨[], [], []⟩ : DB) ∧
    (chatMessage encC0 sb0 [0] ⟨[], [], []⟩ uidS ("S".toList) []
        ("aaaaaaaaaaaa_bbbbbbbbbbbb".toList) ("text".toList) uidC midM
        (fun _ => true)).db.messages = [] := by
  refine ⟨rfl, ?_, rfl⟩
  decide

/-- C7.  On a successful `chat_message` send, the push collaborator is
invoked exactly once for each participant other than the sender who is
offline with at least one registered token (once each, since the
participant list has no duplicates), always with the fixed
privacy-preserving body `"Tap to view message"`, which does not depend
on the message content; the collaborator's success or failure (`pok`)
changes neither the persisted state, nor the fan-out emissions, nor the
set of push payloads — the message is persisted and fanned out to every
participant regardless. -/
theorem c7_offline_push (encC : List Nat → List Nat → List Nat)
    (sb : JSString → List Nat) (iv : List Nat) (db : DB)
    (sid sn content room ty f1 f2 : JSString) (pok : JSString → Bool)
    (c : Conversation)
    (hroom : isValidObjectId room = true)
    (hec : encrypt encC sb iv content ≠ [])
    (hty : validType ty = true)
    (hsid : isValidObjectId sid = true)
    (hc : findConv db room = some c)
    (hnd : c.participants.Nodup) :
    (chatMessage encC sb iv db sid sn content room ty f1 f2 pok).pushes =
      (c.participants.filter fun p =>
          decide (p ≠ sid ∧ offlineWithTokens db p)).map
        (fun p => (⟨userTokens db p, pushTitle sn, pushBody, room, sid⟩,
          pok p)) ∧
    (∀ q ∈ (chatMessage encC sb iv db sid sn content room ty f1 f2
        pok).pushes, q.1.body = "Tap to view message".toList) ∧
    (c.participants.filter fun p =>
        decide (p ≠ sid ∧ offlineWithTokens db p)).Nodup ∧
    (∀ pok' : JSString → Bool,
      (chatMessage encC sb iv db sid sn content room ty f1 f2 pok').db =
        (chatMessage encC sb iv db sid sn content room ty f1 f2 pok).db ∧
      (chatMessage encC sb iv db sid sn content room ty f1 f2 pok').emits =
        (chatMessage encC sb iv db sid sn content room ty f1 f2 pok).emits ∧
      (chatMessage encC sb iv db sid sn content room ty f1 f2
          pok').pushes.map Prod.fst =
        (chatMessage encC sb iv db sid sn content room ty f1 f2
          pok).pushes.map Prod.fst) ∧
    (chatMessage encC sb iv db sid sn content room ty f1 f2
        pok).db.messages =
      db.messages ++
        [⟨f2, room, sid, encrypt encC sb iv content, ty, Status.sent,
          false⟩] ∧
    (chatMessage encC sb iv db sid sn content room ty f1 f2 pok).emits =
      c.participants.map fun p => ⟨p, "chat_message".toList, content⟩ := by
  have hr : resolveRoom db room f1 = some (room, db) := by
    unfold resolveRoom
    rw [if_pos hroom]
  have hres : ∀ pk : JSString → Bool,
      chatMessage encC sb iv db sid sn content room ty f1 f2 pk =
        ⟨{ users := db.users,
           conversations :=
             (updateFirstConv
               (fun cv => { cv with last_message :=
                 (if ty = "image".toList then "📷 Image".toList
                  else encrypt encC sb iv content) })
               room db.conversations),
           messages := db.messages ++
             [⟨f2, room, sid, encrypt encC sb iv content, ty, .sent,
               false⟩] },
         c.participants.map fun p => ⟨p, "chat_message".toList, content⟩,
         (c.participants.filter fun p =>
             decide (p ≠ sid ∧ offlineWithTokens db p)).map
           fun p => (⟨userTokens db p, pushTitle sn, pushBody, room, sid⟩,
             pk p)⟩ := by
    intro pk
    unfold chatMessage
    rw [hr]
    dsimp only
    rw [persistAndFanOut_success db sid sn content room ty
      (encrypt encC sb iv content) f2 pk c hec hty hroom hsid hc]
  refine ⟨?_, ?_, List.Nodup.filter _ hnd, ?_, ?_, ?_⟩
  · rw [hres pok]
  · rw [hres pok]
    intro q hq
    rcases List.mem_map.mp hq with ⟨p, _, rfl⟩
    rfl
  · intro pok'
    rw [hres pok, hres pok']
    refine ⟨rfl, rfl, ?_⟩
    rw [List.map_map, List.map_map]
    rfl
  · rw [hres pok]
  · rw [hres pok]

/-- Witness for C7: in a conversation between `uidS` (online sender) and
`uidT` (offline, one token), exactly one push is attempted; it carries
the fixed body and the recipient's token, and the attempt outcome does
not change the persisted message. -/
theorem c7_offline_push_witness :
    (chatMessage encC0 sb0 [0]
        ⟨[⟨uidT, "T".toList, false, ["tok".toList]⟩],
         [⟨ridR, [uidS, uidT], "x".toList⟩], []⟩
        uidS ("S".toList) ("hi".toList) ridR ("text".toList) uidC midM
        (fun _ => false)).pushes =
      [(⟨["tok".toList], pushTitle ("S".toList), pushBody, ridR, uidS⟩,
        false)] := by
  rw [(c7_offline_push encC0 sb0 [0]
      ⟨[⟨uidT, "T".toList, false, ["tok".toList]⟩],
       [⟨ridR, [uidS, uidT], "x".toList⟩], []⟩
      uidS ("S".toList) ("hi".toList) ridR ("text".toList) uidC midM
      (fun _ => false) ⟨ridR, [uidS, uidT], "x".toList⟩
      (by decide) (by decide) (by decide) (by decide) rfl (by decide)).1]
  decide

/-- C10.  `decrypt` is total and conservative: it returns empty input
unchanged, returns the input unchanged when there is no `:`-separated iv
part, returns the input unchanged whenever the decipher step fails (the
modelled `catch` of every throwing Node call), and on every input either
returns the input or the byte-decoded result of a successful decipher —
it never escapes by exception. -/
theorem c10_decrypt_total (decC : List Nat → List Nat → Option (List Nat))
    (b2s : List Nat → JSString) :
    decrypt decC b2s [] = [] ∧
    (∀ t : JSString, (splitOnChar ':' t).length < 2 →
        decrypt decC b2s t = t) ∧
    (∀ (t p r : JSString) (rs : List JSString),
        splitOnChar ':' t = p :: r :: rs →
        decC (hexToBytes p)
            (hexToBytes (List.intercalate [':'] (r :: rs))) = none →
        decrypt decC b2s t = t) ∧
    (∀ t : JSString, decrypt decC b2s t = t ∨
        ∃ pt, decC (hexToBytes ((splitOnChar ':' t).headI))
            (hexToBytes (List.intercalate [':']
              ((splitOnChar ':' t).tail))) = some pt ∧
          decrypt decC b2s t = b2s pt) :=
  ⟨rfl,
    fun t ht => decrypt_of_short decC b2s t ht,
    fun t p r rs hs hd => decrypt_of_fail decC b2s t p r rs hs hd,
    fun t => decrypt_cases decC b2s t⟩

/-- Witness for C10: a string without the `iv:ciphertext` shape — such
as a legacy plaintext with no colon — comes back unchanged. -/
theorem c10_decrypt_total_witness :
    (splitOnChar ':' ("abc".toList)).length < 2 ∧
      decrypt decC0 b2s0 ("abc".toList) = "abc".toList :=
  ⟨by decide, (c10_decrypt_total decC0 b2s0).2.1 ("abc".toList) (by decide)⟩
